import Mathlib

/-!
Verification development for the PET Resource Allocation ETL pipeline
(source files: src/etl.py and PET_Dashboard_Databricks.py).

The pipeline is shallowly embedded: a pandas DataFrame of string cells
becomes a `Table` (a list of column names plus a list of rows, each row a
list of string cells); numeric coercion with `errors="coerce"` becomes an
`Option ℚ`-valued parser; derived numeric and boolean columns are carried
as separate fields of a `Normalized` record.  Missing cells are empty
strings, exactly as the loader reads them (`dtype=str,
keep_default_na=False`).
-/

deriving instance DecidableEq for Except

namespace PET

/-- A pandas DataFrame of string cells: column names plus rows. -/
structure Table where
  cols : List String
  rows : List (List String)
deriving Repr, DecidableEq

/-! ### String utilities mirroring the Python operations used by the source -/

/-- Split a character list at the first occurrence of a character:
Python s.split(c, 1) when it returns two parts. -/
def splitFirst (c : Char) : List Char → Option (List Char × List Char)
  | [] => none
  | x :: xs =>
      if x = c then some ([], xs)
      else (splitFirst c xs).map (fun p => (x :: p.1, p.2))

/-- Numeric value of a list of decimal digit characters (Python int on digits). -/
def digitsVal (cs : List Char) : Nat :=
  cs.foldl (fun a c => a * 10 + (c.toNat - 48)) 0

/-- The whitespace class of Python regular expressions and str.strip,
restricted to ASCII. -/
def isPySpace (c : Char) : Bool :=
  c = ' ' || c = '\t' || c = '\n' || c = '\r' || c = '\x0b' || c = '\x0c'

/-- Python str.strip(): drop leading and trailing whitespace. -/
def pyStrip (s : String) : String :=
  ⟨(((s.data.dropWhile isPySpace).reverse).dropWhile isPySpace).reverse⟩

/-- Python str.lower(), restricted to ASCII case mapping. -/
def pyLower (s : String) : String :=
  ⟨s.data.map Char.toLower⟩

/-- Model of pandas pd.to_numeric(x, errors="coerce") on a string cell,
for plain signed decimal literals (the forms occurring in this data);
anything else, in particular the empty string, coerces to missing (NaN). -/
def toNumeric (s : String) : Option ℚ :=
  let t := (pyStrip s).data
  let (sign, body) : ℚ × List Char :=
    match t with
    | '-' :: rest => (-1, rest)
    | '+' :: rest => (1, rest)
    | _ => (1, t)
  match splitFirst '.' body with
  | none =>
      if body ≠ [] ∧ body.all Char.isDigit then
        some (sign * (digitsVal body : ℚ))
      else none
  | some (ip, fp) =>
      if (ip ++ fp) ≠ [] ∧ ip.all Char.isDigit ∧ fp.all Char.isDigit then
        some (sign * ((digitsVal ip : ℚ) + (digitsVal fp : ℚ) / (10 : ℚ) ^ fp.length))
      else none

/-! ### Employee field parser (etl.py parse_employee, lines 64-74) -/

/-- re.sub(r"\D", "", s): keep only decimal digits. -/
def stripNonDigits (s : String) : String :=
  ⟨s.data.filter Char.isDigit⟩

/-- Python str.split(" - "): leftmost non-overlapping scan splitting on
the three-character separator space-dash-space. -/
def splitDashSep : List Char → List (List Char)
  | ' ' :: '-' :: ' ' :: rest => [] :: splitDashSep rest
  | c :: rest =>
      match splitDashSep rest with
      | [] => [[c]]
      | p :: ps => (c :: p) :: ps
  | [] => [[]]

/-- Python "needle in s" substring test for the separator " - ":
the separator occurs iff str.split produces at least two parts. -/
def containsDashSep (s : String) : Bool :=
  (splitDashSep s.data).length ≥ 2

/-- etl.py parse_employee: split the raw resource string on the first
colon into (employee_id, resource_name, resource_title).  The Python
guard for non-string input is omitted because the loader reads every
cell as a string.  Returns (employee_id?, resource_name, resource_title). -/
def parse_employee (raw : String) : Option String × String × String :=
  match splitFirst ':' raw.data with
  | some (before, after) =>
      let empId := stripNonDigits ⟨before⟩
      let title := pyStrip ⟨after⟩
      let name :=
        if containsDashSep title then
          pyStrip ⟨(splitDashSep title.data).getLastD title.data⟩
        else title
      ((if empId = "" then none else some empId), name, title)
  | none => (none, pyStrip raw, pyStrip raw)

/-! ### Header classifier (etl.py _likely_header_row; Databricks auto-detect loop) -/

/-- The sentinel vocabulary of business-header labels (etl.py SENTINELS). -/
def SENTINELS : List String :=
  ["Supervisor or Hiring Manager", "Resource or Rec/Offer", "L3 Org"]

/-- etl.py _likely_header_row: the intersection of the sentinel set with the
set of stripped cell values of the row has cardinality at least 2.  Counting
over the (distinct) sentinels equals the cardinality of that intersection. -/
def _likely_header_row (row : List String) : Bool :=
  (SENTINELS.countP (fun s => row.any (fun v => pyStrip v = s))) ≥ 2

/-- PET_Dashboard_Databricks.py auto-detect loop (lines 169-180): scan the
first (at most) 10 raw rows for the first likely header row; on a hit the
convention is BUSINESS (true) with that row index, otherwise LEGACY (false)
with header row 0. -/
def classifyHeader (rows : List (List String)) : Bool × Nat :=
  match (rows.take 10).findIdx? _likely_header_row with
  | some i => (true, i)
  | none => (false, 0)

/-! ### Workstream pair discovery (etl.py find_workstream_pairs) -/

/-- Drop leading regex whitespace. -/
def dropSpaces (cs : List Char) : List Char := cs.dropWhile isPySpace

/-- Case-insensitive character comparison (ASCII, matching re.I). -/
def charCIEq (a b : Char) : Bool := a.toLower = b.toLower

/-- Strip a case-insensitive literal from the front of a character list. -/
def stripCI : List Char → List Char → Option (List Char)
  | [], cs => some cs
  | _, [] => none
  | p :: ps, c :: cs => if charCIEq p c then stripCI ps cs else none

/-- Match of WS_NAME_RE, the anchored case-insensitive pattern
"whitespace*, literal Workstream, whitespace*, digits, whitespace*";
returns the integer value of the digit group. -/
def wsIndex (s : String) : Option Nat :=
  match stripCI "workstream".data (dropSpaces s.data) with
  | none => none
  | some rest =>
      let rest2 := dropSpaces rest
      let ds := rest2.takeWhile Char.isDigit
      let rest3 := rest2.dropWhile Char.isDigit
      if ds ≠ [] ∧ dropSpaces rest3 = [] then some (digitsVal ds) else none

/-- Match of PCT_NAME_RE, the anchored pattern "whitespace*, one or more
percent signs, whitespace*, digits, whitespace*"; returns the digit group. -/
def pctIndex (s : String) : Option Nat :=
  let cs := dropSpaces s.data
  let pcts := cs.takeWhile (fun c => c = '%')
  let rest := cs.dropWhile (fun c => c = '%')
  if pcts = [] then none
  else
    let rest2 := dropSpaces rest
    let ds := rest2.takeWhile Char.isDigit
    let rest3 := rest2.dropWhile Char.isDigit
    if ds ≠ [] ∧ dropSpaces rest3 = [] then some (digitsVal ds) else none

/-- Python dict assignment d[k] = v: replace the value at an existing key,
or append a new binding. -/
def dinsert (m : List (Nat × String)) (k : Nat) (v : String) : List (Nat × String) :=
  if m.any (fun p => p.1 = k) then m.map (fun p => if p.1 = k then (k, v) else p)
  else m ++ [(k, v)]

/-- Python dict lookup d[k]. -/
def dget (m : List (Nat × String)) (k : Nat) : Option String :=
  (m.find? (fun p => p.1 = k)).map Prod.snd

/-- Python "k in d". -/
def hasKey (m : List (Nat × String)) (k : Nat) : Bool :=
  m.any (fun p => p.1 = k)

/-- Insert into an ascending list of keys. -/
def insertAsc (k : Nat) : List Nat → List Nat
  | [] => [k]
  | x :: xs => if k ≤ x then k :: x :: xs else x :: insertAsc k xs

/-- Python sorted on a list of integer keys. -/
def sortAsc (l : List Nat) : List Nat := l.foldr insertAsc []

/-- One iteration of the find_workstream_pairs loop: each column is tried
against WS_NAME_RE first and PCT_NAME_RE only otherwise (the elif of the
source). -/
def pairStep (acc : List (Nat × String) × List (Nat × String)) (c : String) :
    List (Nat × String) × List (Nat × String) :=
  match wsIndex c with
  | some n => (dinsert acc.1 n c, acc.2)
  | none =>
      match pctIndex c with
      | some n => (acc.1, dinsert acc.2 n c)
      | none => acc

/-- The two index-to-column dicts ws_cols and pct_cols built by the loop of
find_workstream_pairs. -/
def pairMaps (cols : List String) : List (Nat × String) × List (Nat × String) :=
  cols.foldl pairStep ([], [])

/-- The tuple (ws_cols[k], pct_cols[k]) looked up for a shared index. -/
def pairLookup (ws pc : List (Nat × String)) (k : Nat) : Option (String × String) :=
  match dget ws k, dget pc k with
  | some a, some b => some (a, b)
  | _, _ => none

/-- etl.py find_workstream_pairs: pairs (ws_cols[k], pct_cols[k]) for k in
sorted(set(ws_cols) & set(pct_cols)). -/
def find_workstream_pairs (cols : List String) : List (String × String) :=
  let ws := (pairMaps cols).1
  let pc := (pairMaps cols).2
  let ks := (ws.map Prod.fst).filter (fun k => hasKey pc k)
  (sortAsc ks).filterMap (pairLookup ws pc)

/-! ### Table primitives -/

/-- Index of the first column with the given name (pandas column lookup). -/
def colIdx (t : Table) (name : String) : Option Nat :=
  t.cols.findIdx? (fun c => c = name)

/-- The cell column under the first column with the given name; the column
names used by the pipeline always exist, so the fallback is never taken. -/
def getCol (t : Table) (name : String) : List String :=
  match colIdx t name with
  | some i => t.rows.map (fun r => r.getD i "")
  | none => t.rows.map (fun _ => "")

/-! ### Embedded header reader (etl.py read_with_embedded_header) -/

/-- etl.py read_with_embedded_header: when at least one data row exists, the
first data row holds the business headers; each of its cells that is
non-empty and whose stripped value is neither empty nor the literal "nan"
replaces the technical column name, and the row is dropped from the data. -/
def read_with_embedded_header (t : Table) : Table :=
  match t.rows with
  | [] => t
  | first :: rest =>
      let combined := (t.cols.zip first).map (fun p =>
        if p.2 ≠ "" ∧ pyStrip p.2 ≠ "" ∧ pyStrip p.2 ≠ "nan" then pyStrip p.2
        else p.1)
      ⟨combined, rest⟩

/-! ### Canonical column renaming (etl.py load_latest_csv, lines 116-129) -/

/-- The rename_map of load_latest_csv, in its insertion order. -/
def RENAME_MAP : List (String × String) :=
  [("Supervisor or Hiring Manager", "supervisor"),
   ("Resource or Rec/Offer", "resource_raw"),
   ("Type", "type"),
   ("L3 Org", "l3_org"),
   ("VP Org", "vp_org"),
   ("Director Org", "director_org"),
   ("Total Workstream Allocation %", "total_workstream_allocation_pct")]

/-- pandas df[name] = "" : overwrite an existing column with empty strings,
or append a fresh all-empty column. -/
def setColEmpty (t : Table) (name : String) : Table :=
  match colIdx t name with
  | some i => ⟨t.cols, t.rows.map (fun r => r.set i "")⟩
  | none => ⟨t.cols ++ [name], t.rows.map (fun r => r ++ [""])⟩

/-- One iteration of the rename loop: rename every column equal to the
business label, or synthesize the canonical column as all-empty. -/
def renameStep (t : Table) (kv : String × String) : Table :=
  if t.cols.contains kv.1 then
    ⟨t.cols.map (fun c => if c = kv.1 then kv.2 else c), t.rows⟩
  else setColEmpty t kv.2

/-- The full rename loop over RENAME_MAP. -/
def rename_canonical (t : Table) : Table :=
  RENAME_MAP.foldl renameStep t

/-! ### Hierarchy reconstruction (etl.py load_latest_csv, lines 136-155) -/

/-- The row scan with the current_supervisor accumulator: a non-empty cell
starts a new supervisor block (remembered, the cell itself rewritten to
"Self"); an empty cell receives the current supervisor, or "Unassigned"
when none has been seen. -/
def reconstructFrom : Option String → List String → List String
  | _, [] => []
  | cur, s :: rest =>
      if s ≠ "" then "Self" :: reconstructFrom (some s) rest
      else (cur.getD "Unassigned") :: reconstructFrom cur rest

/-- The supervisor column after the pivot-structure scan. -/
def reconstruct_supervisors (cells : List String) : List String :=
  reconstructFrom none cells

/-! ### Allocation aggregation (etl.py compute_total_allocation) -/

/-- pandas Series.between(0, 1): inclusive on both ends. -/
def between01 (q : ℚ) : Bool :=
  decide (0 ≤ q) && decide (q ≤ 1)

/-- The column-level scale heuristic col.dropna().between(0,1).mean() > 0.85;
an all-missing column gives a NaN mean and NaN > 0.85 is false. -/
def shouldScale (col : List (Option ℚ)) : Bool :=
  let vs := col.filterMap id
  if vs.length = 0 then false
  else decide (((vs.countP between01 : ℚ) / (vs.length : ℚ)) > 85 / 100)

/-- Multiply the whole column by 100 when the heuristic classifies it as
fractional (missing entries stay missing). -/
def scaleCol (col : List (Option ℚ)) : List (Option ℚ) :=
  if shouldScale col then col.map (fun v => v.map (fun q => q * 100)) else col

/-- pandas Series.add with fill_value=0: missing plus missing stays missing,
otherwise missing is treated as 0. -/
def addFill : Option ℚ → Option ℚ → Option ℚ
  | none, none => none
  | some x, none => some x
  | none, some y => some y
  | some x, some y => some (x + y)

/-- A cell of the mixed-typed total column: still a raw string in the
no-pairs branch, already numeric otherwise; none is NaN/None. -/
inductive PdVal where
  | str (s : String)
  | num (q : ℚ)
deriving Repr, DecidableEq

/-- pd.to_numeric(errors="coerce") on a mixed cell. -/
def coerceCell : Option PdVal → Option ℚ
  | none => none
  | some (PdVal.str s) => toNumeric s
  | some (PdVal.num q) => some q

/-- A percent column coerced to numeric. -/
def numCol (t : Table) (name : String) : List (Option ℚ) :=
  (getCol t name).map toNumeric

/-- The columns computed_total_pct and total_allocation_pct added by
compute_total_allocation (the latter before the final numeric coercion of
load_latest_csv line 162). -/
structure AllocOut where
  computed_total_pct : List ℚ
  total_pre : List (Option PdVal)
deriving Repr

/-- The official total column name tested by compute_total_allocation. -/
def CANON : String := "Total Workstream Allocation %"

/-- etl.py compute_total_allocation: with no pairs, computed totals are 0 and
the total column falls back to df.get("total_workstream_allocation_pct");
otherwise the per-pair percent columns are coerced, auto-scaled per column,
and summed with fill_value 0, and the official column, when present under
its business name, is preferred where it parses. -/
def compute_total_allocation (t : Table) : AllocOut :=
  let pairs := find_workstream_pairs t.cols
  if pairs.isEmpty then
    { computed_total_pct := t.rows.map (fun _ => 0)
      total_pre :=
        if t.cols.contains "total_workstream_allocation_pct" then
          (getCol t "total_workstream_allocation_pct").map (fun s => some (PdVal.str s))
        else t.rows.map (fun _ => none) }
  else
    let comp : List (Option ℚ) :=
      (pairs.drop 1).foldl
        (fun acc pr => acc.zipWith addFill (scaleCol (numCol t pr.2)))
        (scaleCol (numCol t (pairs.headD ("", "")).2))
    let computed := comp.map (fun v => v.getD 0)
    let total :=
      if t.cols.contains CANON then
        (((getCol t CANON).map toNumeric).zipWith
          (fun off c => some (PdVal.num (off.getD c))) computed)
      else computed.map (fun q => some (PdVal.num q))
    { computed_total_pct := computed, total_pre := total }

/-! ### Completion detector (etl.py detect_workstream1_completion) -/

/-- The affirmative vocabulary of the completion detector. -/
def AFFIRMATIVE : List String := ["y", "yes", "true", "1", "active"]

/-- The status column label the detector looks for. -/
def STATUS_LABEL : String := "Workstream Status Active"

/-- etl.py detect_workstream1_completion: take the first column literally
named "Workstream Status Active" and test each stripped, lowercased cell
against the affirmative vocabulary; with no such column every row is false. -/
def detect_workstream1_completion (t : Table) : List Bool :=
  match colIdx t STATUS_LABEL with
  | none => t.rows.map (fun _ => false)
  | some i => t.rows.map (fun r => AFFIRMATIVE.contains (pyLower (pyStrip (r.getD i ""))))

/-! ### End-to-end loader (etl.py load_latest_csv) -/

/-- The normalized per-resource output of load_latest_csv: the renamed
string table plus the derived columns it appends. -/
structure Normalized where
  table : Table
  supervisor : List String
  employee_id : List (Option String)
  resource_name : List String
  resource_title : List String
  computed_total_pct : List ℚ
  total_allocation_pct : List ℚ
  workstream1_completed : List Bool
  overallocated : List Bool
  underallocated : List Bool
  unassigned : List Bool
deriving Repr, DecidableEq

/-- The columns load_latest_csv derives from the renamed table: employee
parsing, supervisor reconstruction, totals, completion, the final numeric
coercion of the total (line 162), and the three flags (lines 165-167). -/
def buildNormalized (df : Table) : Normalized :=
  let parsed := (getCol df "resource_raw").map parse_employee
  let sup := reconstruct_supervisors (getCol df "supervisor")
  let alloc := compute_total_allocation df
  let ws1 := detect_workstream1_completion df
  let total := alloc.total_pre.map (fun v => (coerceCell v).getD 0)
  { table := df
    supervisor := sup
    employee_id := parsed.map (fun p => p.1)
    resource_name := parsed.map (fun p => p.2.1)
    resource_title := parsed.map (fun p => p.2.2)
    computed_total_pct := alloc.computed_total_pct
    total_allocation_pct := total
    workstream1_completed := ws1
    overallocated := total.map (fun q => decide (q > 100))
    underallocated := total.map (fun q => decide (q < 100))
    unassigned := total.map (fun q => decide (q = 0)) }

/-- etl.py load_latest_csv: embedded-header absorption, canonical renames,
then the derived columns of buildNormalized.  The multi-column assignment
of the parsed employee fields (line 133) is modelled as pandas (1.2 and
later) executes it: assigning a DataFrame built from an empty list of
parsed tuples, which has zero columns, to a three-name key raises
ValueError "Columns must be same length as key", so a table left with zero
data rows is an error. -/
def load_latest_csv (t : Table) : Except String Normalized :=
  let df := rename_canonical (read_with_embedded_header t)
  let parsed := (getCol df "resource_raw").map parse_employee
  if parsed.isEmpty then Except.error "Columns must be same length as key"
  else Except.ok (buildNormalized df)

/-! ### Concrete input tables used to instantiate the theorems -/

/-- A one-row business-format file whose official total column (50)
disagrees with its single workstream percentage (80). -/
def officialTotalTable : Table :=
  ⟨["c1", "c2", "c3", "c4"],
   [["Resource or Rec/Offer", "Total Workstream Allocation %", "Workstream 1", "% 1"],
    ["", "50", "X", "80"]]⟩

/-- A one-row business-format file whose single workstream percentage is 0. -/
def zeroAllocTable : Table :=
  ⟨["c1", "c2", "c3"],
   [["Resource or Rec/Offer", "Workstream 1", "% 1"], ["", "X", "0"]]⟩

/-- The Normalized output of a successful pipeline run (with an inert
placeholder in the error case), used to instantiate theorems about
load_latest_csv at concrete inputs. -/
def pipelineOut (t : Table) : Normalized :=
  match load_latest_csv t with
  | Except.ok nt => nt
  | Except.error _ => ⟨⟨[], []⟩, [], [], [], [], [], [], [], [], [], []⟩

/-! ## Theorems -/

/-! ### Supporting lemmas -/

/-- Every cell written by the supervisor scan is non-empty, provided the
accumulator never holds an empty supervisor (which the scan maintains). -/
theorem reconstructFrom_ne_empty :
    ∀ (cells : List String) (cur : Option String),
      (∀ c, cur = some c → c ≠ "") →
      ∀ s ∈ reconstructFrom cur cells, s ≠ "" := by
  intro cells
  induction cells with
  | nil =>
      intro cur hcur s hs
      simp [reconstructFrom] at hs
  | cons x xs ih =>
      intro cur hcur s hs
      unfold reconstructFrom at hs
      by_cases hx : x = ""
      · simp [hx] at hs
        rcases hs with rfl | hs
        · cases cur with
          | none => simp
          | some c => simpa using hcur c rfl
        · exact ih cur hcur s hs
      · simp [hx] at hs
        rcases hs with rfl | hs
        · decide
        · exact ih (some x) (fun c hc => by cases hc; exact hx) s hs

/-- The column-scale heuristic only depends on the multiset of values. -/
theorem shouldScale_perm (col col' : List (Option ℚ)) (h : col.Perm col') :
    shouldScale col = shouldScale col' := by
  simp only [shouldScale]
  have hfm : (col.filterMap id).Perm (col'.filterMap id) := h.filterMap id
  rw [hfm.length_eq, hfm.countP_eq]

/-! ### Claim C2 (employee field parser, corrected) -/

/-- C2, counterexample: on the input "12345: Req - Jane Doe" the parser does
not return resource_title = "Req" as the claim states; the full trimmed
portion after the colon is the title. -/
theorem c2_counterexample :
    parse_employee "12345: Req - Jane Doe" ≠ (some "12345", "Jane Doe", "Req") := by
  decide

/-- C2, amended: parsing "12345: Req - Jane Doe" yields employee_id "12345",
resource_name "Jane Doe" and resource_title "Req - Jane Doe" (the whole
trimmed text after the colon); a colon-free string yields a null id with
both name and title equal to the trimmed input. -/
theorem c2_parse_employee_amended :
    parse_employee "12345: Req - Jane Doe" = (some "12345", "Jane Doe", "Req - Jane Doe") ∧
    parse_employee "Jane Doe" = (none, "Jane Doe", "Jane Doe") := by
  decide

/-! ### Claim C4 (hierarchy reconstructor, confirmed) -/

/-- C4: the supervisor scan maps the example column to
[Self, alice, alice, Self, bob], and on every input column the
reconstructed supervisor cells are all non-empty. -/
theorem c4_hierarchy_reconstruction :
    reconstruct_supervisors ["alice@co", "", "", "bob@co", ""] =
      ["Self", "alice@co", "alice@co", "Self", "bob@co"] ∧
    ∀ (cells : List String), ∀ s ∈ reconstruct_supervisors cells, s ≠ "" :=
  ⟨by decide, fun cells s hs =>
    reconstructFrom_ne_empty cells none (fun c hc => by cases hc) s hs⟩

/-- C4, witness: the no-empty-cell invariant applied to a concrete column. -/
theorem c4_witness : ("alice@co" : String) ≠ "" :=
  c4_hierarchy_reconstruction.2 ["alice@co", ""] "alice@co" (by decide)

/-! ### Claim C5 (column scale decision, confirmed) -/

unseal Rat.add Rat.mul Rat.inv in
/-- C5: the column-level scale decision is invariant under permutation of
the column's values; it fires exactly when the fraction of non-missing
values lying in the interval 0..1 exceeds 85 percent; and a single resource
with fractional workstream percentages 0.5 and 0.3 in its two pair columns
gets computed_total_pct 80, not 0.8. -/
theorem c5_column_scale_decision :
    (∀ col col' : List (Option ℚ), col.Perm col' → shouldScale col = shouldScale col') ∧
    (∀ col : List (Option ℚ), shouldScale col = true ↔
      (col.filterMap id).length ≠ 0 ∧
        ((85 : ℚ) / 100 < ((col.filterMap id).countP between01 : ℚ) /
          ((col.filterMap id).length : ℚ))) ∧
    (compute_total_allocation
        ⟨["Workstream 1", "% 1", "Workstream 2", "% 2"],
         [["A", "0.5", "B", "0.3"]]⟩).computed_total_pct = [80] := by
  refine ⟨shouldScale_perm, ?_, by decide⟩
  intro col
  simp only [shouldScale]
  split
  · simp [*]
  · simp only [decide_eq_true_eq, gt_iff_lt]
    exact ⟨fun h => ⟨by assumption, h⟩, fun h => h.2⟩

/-- C5, witness: permutation invariance at a concrete column. -/
theorem c5_witness :
    shouldScale [some (1 : ℚ), none] = shouldScale [none, some (1 : ℚ)] :=
  c5_column_scale_decision.1 _ _ (by decide)

/-! ### Claim C10 (embedded-header reader, confirmed) -/

/-- C10: with at least one data row, the reader always drops the first data
row (one fewer row, with no condition on sentinel content), and each column
name becomes the row's stripped cell when that cell is non-empty and not
"nan", the technical name otherwise. -/
theorem c10_embedded_header_reader :
    ∀ (t : Table) (first : List String) (rest : List (List String)),
      t.rows = first :: rest →
      (read_with_embedded_header t).rows = rest ∧
      (read_with_embedded_header t).rows.length + 1 = t.rows.length ∧
      ∀ i : Nat, i < t.cols.length → i < first.length →
        (read_with_embedded_header t).cols.getD i "" =
          (if first.getD i "" ≠ "" ∧ pyStrip (first.getD i "") ≠ "" ∧
              pyStrip (first.getD i "") ≠ "nan"
           then pyStrip (first.getD i "") else t.cols.getD i "") := by
  intro t first rest hrows
  obtain ⟨cols, rows⟩ := t
  simp only at hrows
  subst hrows
  refine ⟨rfl, by simp [read_with_embedded_header], ?_⟩
  intro i hic hif
  dsimp only at hic ⊢
  have hzip : i < (cols.zip first).length := by
    rw [List.length_zip]; omega
  have hmap : i < ((cols.zip first).map (fun p =>
      if p.2 ≠ "" ∧ pyStrip p.2 ≠ "" ∧ pyStrip p.2 ≠ "nan" then pyStrip p.2
      else p.1)).length := by
    rw [List.length_map]; exact hzip
  simp only [read_with_embedded_header]
  rw [List.getD_eq_getElem _ _ hmap, List.getElem_map, List.getElem_zip,
    List.getD_eq_getElem _ _ hic, List.getD_eq_getElem _ _ hif]

/-- C10, witness: the reader applied to a one-column table with two data
rows drops the first row and adopts its cell as the column name. -/
theorem c10_witness :
    (read_with_embedded_header ⟨["a"], [["B"], ["x"]]⟩).rows = [["x"]] ∧
    (read_with_embedded_header ⟨["a"], [["B"], ["x"]]⟩).cols.getD 0 "" = "B" := by
  have h := c10_embedded_header_reader ⟨["a"], [["B"], ["x"]]⟩ ["B"] [["x"]] rfl
  refine ⟨h.1, ?_⟩
  have h2 := h.2.2 0 (by decide) (by decide)
  simpa using h2

/-! ### Supporting lemmas about the end-to-end loader -/

/-- On a successful run the three flag columns are the pointwise threshold
maps of the final numeric total column (etl.py lines 165-167). -/
theorem buildNormalized_flags (df : Table) :
    (buildNormalized df).overallocated =
      (buildNormalized df).total_allocation_pct.map (fun q => decide (q > 100)) ∧
    (buildNormalized df).underallocated =
      (buildNormalized df).total_allocation_pct.map (fun q => decide (q < 100)) ∧
    (buildNormalized df).unassigned =
      (buildNormalized df).total_allocation_pct.map (fun q => decide (q = 0)) :=
  ⟨rfl, rfl, rfl⟩

theorem load_ok_flags (t : Table) (nt : Normalized)
    (h : load_latest_csv t = Except.ok nt) :
    nt.overallocated = nt.total_allocation_pct.map (fun q => decide (q > 100)) ∧
    nt.underallocated = nt.total_allocation_pct.map (fun q => decide (q < 100)) ∧
    nt.unassigned = nt.total_allocation_pct.map (fun q => decide (q = 0)) := by
  simp only [load_latest_csv] at h
  split at h
  · cases h
  · cases h
    exact buildNormalized_flags _

/-- The last rename step removes the business total label from the columns
whatever table it is applied to. -/
theorem canon_notin_renameStep (u : Table) :
    CANON ∉ (renameStep u (CANON, "total_workstream_allocation_pct")).cols := by
  unfold renameStep
  split
  · intro hmem
    simp only [List.mem_map] at hmem
    obtain ⟨a, _, hfa⟩ := hmem
    by_cases hac : a = CANON
    · rw [if_pos hac] at hfa
      exact absurd hfa (by decide)
    · rw [if_neg hac] at hfa
      exact hac hfa
  · rename_i hnc
    unfold setColEmpty
    split
    · intro hmem
      simp only [List.contains_eq_any_beq, List.any_eq_true, beq_iff_eq] at hnc
      exact hnc ⟨CANON, hmem, rfl⟩
    · intro hmem
      rcases List.mem_append.mp hmem with hmem | hmem
      · simp only [List.contains_eq_any_beq, List.any_eq_true, beq_iff_eq] at hnc
        exact hnc ⟨CANON, hmem, rfl⟩
      · exact absurd (List.mem_singleton.mp hmem) (by decide)

/-- After the canonical rename loop the official business total label is
never among the column names, so the official-total branch of
compute_total_allocation can never fire inside load_latest_csv. -/
theorem canon_not_mem_rename (t : Table) : CANON ∉ (rename_canonical t).cols := by
  unfold rename_canonical RENAME_MAP
  simp only [List.foldl_cons, List.foldl_nil]
  exact canon_notin_renameStep _

/-- The rename loop never changes the number of rows. -/
theorem renameStep_rows_length (t : Table) (kv : String × String) :
    (renameStep t kv).rows.length = t.rows.length := by
  unfold renameStep setColEmpty
  split
  · rfl
  · split <;> simp

/-- The full canonical rename keeps the number of rows. -/
theorem rename_rows_length (t : Table) :
    (rename_canonical t).rows.length = t.rows.length := by
  unfold rename_canonical RENAME_MAP
  simp only [List.foldl_cons, List.foldl_nil, renameStep_rows_length]

/-- Column extraction yields one cell per row. -/
theorem getCol_length (t : Table) (name : String) :
    (getCol t name).length = t.rows.length := by
  unfold getCol
  split <;> simp

/-- A table with at most one raw row has no data rows after the embedded
business-header row is absorbed. -/
theorem embedded_rows_nil (t : Table) (ht : t.rows.length ≤ 1) :
    (read_with_embedded_header t).rows = [] := by
  unfold read_with_embedded_header
  cases hr : t.rows with
  | nil => simp [hr]
  | cons a l =>
      rw [hr] at ht
      simp only [List.length_cons] at ht
      have hl : l.length = 0 := by omega
      simpa using List.length_eq_zero.mp hl

/-! ### Claim C1 (flag exclusivity, corrected) -/

unseal Rat.add Rat.mul Rat.inv in
/-- C1, counterexample: on a row whose total allocation is 0 the pipeline
sets both underallocated and unassigned to true, because etl.py line 166
defines underallocated as total strictly below 100 without excluding 0;
so the three flags are not mutually exclusive as claimed. -/
theorem c1_counterexample :
    (load_latest_csv zeroAllocTable).map
        (fun nt => (nt.overallocated, nt.underallocated, nt.unassigned)) =
      Except.ok ([false], [true], [true]) := by
  decide

/-- C1, amended: of the three flags, overallocated is exclusive with each of
the other two, and a row flagged unassigned is always also flagged
underallocated; mutual exclusivity of all three holds exactly on the rows
whose final total is non-zero. -/
theorem c1_flag_exclusivity_amended :
    ∀ (t : Table) (nt : Normalized) (i : Nat), load_latest_csv t = Except.ok nt →
      (nt.overallocated.getD i false && nt.underallocated.getD i false) = false ∧
      (nt.overallocated.getD i false && nt.unassigned.getD i false) = false ∧
      (nt.unassigned.getD i false = true → nt.underallocated.getD i false = true) ∧
      (nt.total_allocation_pct.getD i 0 ≠ 0 →
        (nt.underallocated.getD i false && nt.unassigned.getD i false) = false) := by
  intro t nt i h
  obtain ⟨hov, hun, hua⟩ := load_ok_flags t nt h
  rw [hov, hun, hua]
  by_cases hi : i < nt.total_allocation_pct.length
  · have hgd : ∀ f : ℚ → Bool,
        (nt.total_allocation_pct.map f).getD i false = f (nt.total_allocation_pct.getD i 0) := by
      intro f
      rw [List.getD_eq_getElem _ _ (by simpa using hi), List.getElem_map,
        List.getD_eq_getElem _ _ hi]
    rw [hgd, hgd, hgd]
    set q := nt.total_allocation_pct.getD i 0 with hq
    refine ⟨?_, ?_, ?_, ?_⟩
    · by_cases hgt : q > 100
      · have hlt : ¬(q < 100) := by linarith
        simp [hgt, hlt]
      · simp [hgt]
    · by_cases hgt : q > 100
      · have hz : ¬(q = 0) := by intro h0; rw [h0] at hgt; norm_num at hgt
        simp [hgt, hz]
      · simp [hgt]
    · intro h0
      have hz : q = 0 := by simpa using h0
      have : q < 100 := by rw [hz]; norm_num
      simpa using this
    · intro hne
      have hz : decide (q = 0) = false := by simpa using hne
      simp [hz]
  · have hle : nt.total_allocation_pct.length ≤ i := Nat.le_of_not_lt hi
    rw [List.getD_eq_default _ _ (by simpa using hle),
      List.getD_eq_default _ _ (by simpa using hle),
      List.getD_eq_default _ _ (by simpa using hle),
      List.getD_eq_default _ _ hle]
    simp

unseal Rat.add Rat.mul Rat.inv in
/-- C1, witness: the amended flag relationships instantiated on the
concrete zero-total pipeline run. -/
theorem c1_witness :
    ((pipelineOut zeroAllocTable).overallocated.getD 0 false &&
      (pipelineOut zeroAllocTable).underallocated.getD 0 false) = false ∧
    ((pipelineOut zeroAllocTable).overallocated.getD 0 false &&
      (pipelineOut zeroAllocTable).unassigned.getD 0 false) = false ∧
    ((pipelineOut zeroAllocTable).unassigned.getD 0 false = true →
      (pipelineOut zeroAllocTable).underallocated.getD 0 false = true) ∧
    ((pipelineOut zeroAllocTable).total_allocation_pct.getD 0 0 ≠ 0 →
      ((pipelineOut zeroAllocTable).underallocated.getD 0 false &&
        (pipelineOut zeroAllocTable).unassigned.getD 0 false) = false) :=
  c1_flag_exclusivity_amended zeroAllocTable (pipelineOut zeroAllocTable) 0 (by decide)

/-! ### Claim C3 (official total preference, code bug) -/

unseal Rat.add Rat.mul Rat.inv in
/-- C3: in the end-to-end pipeline the official total column never wins.
On a file whose official total cell is "50" (which parses: toNumeric gives
50) and whose single workstream percentage is 80, the final
total_allocation_pct is 80, the computed total, not 50 — because
load_latest_csv renames the official column to its canonical name before
compute_total_allocation looks it up under its business name, so that
branch is dead for every input. -/
theorem c3_official_total_ignored :
    (load_latest_csv officialTotalTable).map (fun nt => nt.total_allocation_pct) =
      Except.ok [80] ∧
    (load_latest_csv officialTotalTable).map (fun nt => nt.computed_total_pct) =
      Except.ok [80] ∧
    toNumeric "50" = some 50 ∧
    ∀ t : Table, CANON ∉ (rename_canonical t).cols :=
  ⟨by decide, by decide, by decide, canon_not_mem_rename⟩

/-! ### Claim C9 (empty input, code bug) -/

/-- C9: on an input with zero data rows the pipeline does not complete; the
parsed-employee multi-column assignment (etl.py line 133) raises pandas'
"Columns must be same length as key" ValueError, because the DataFrame
built from an empty list of parsed tuples has zero columns.  Stated both at
a concrete header-only file and for every table with at most one raw row
(the raw business-header row being absorbed by the reader). -/
theorem c9_empty_input_error :
    load_latest_csv ⟨["Supervisor or Hiring Manager", "Resource or Rec/Offer", "L3 Org"], []⟩ =
      Except.error "Columns must be same length as key" ∧
    ∀ t : Table, t.rows.length ≤ 1 →
      load_latest_csv t = Except.error "Columns must be same length as key" := by
  refine ⟨by decide, ?_⟩
  intro t ht
  have hemb := embedded_rows_nil t ht
  have hlen : ((getCol (rename_canonical (read_with_embedded_header t))
      "resource_raw").map parse_employee).length = 0 := by
    rw [List.length_map, getCol_length, rename_rows_length, hemb]
    rfl
  have hempty : ((getCol (rename_canonical (read_with_embedded_header t))
      "resource_raw").map parse_employee).isEmpty = true := by
    rw [List.isEmpty_iff]
    exact List.length_eq_zero.mp hlen
  simp only [load_latest_csv]
  rw [if_pos hempty]

/-- C9, witness: the zero-data-row error at a concrete one-column table. -/
theorem c9_witness :
    load_latest_csv ⟨["x"], []⟩ = Except.error "Columns must be same length as key" :=
  c9_empty_input_error.2 ⟨["x"], []⟩ (by decide)

/-- Counting hits among three pairwise distinct elements reaches 2 exactly
when two distinct elements among them are hits. -/
theorem countP_two_of_three {α : Type} (p : α → Bool) (a b c : α)
    (hab : a ≠ b) (hac : a ≠ c) (hbc : b ≠ c) :
    2 ≤ List.countP p [a, b, c] ↔
      ∃ s1 s2, s1 ≠ s2 ∧ s1 ∈ [a, b, c] ∧ s2 ∈ [a, b, c] ∧ p s1 = true ∧ p s2 = true := by
  simp only [List.countP_cons, List.countP_nil, Nat.zero_add]
  constructor
  · intro h
    by_cases ha : p a = true <;> by_cases hb : p b = true <;> by_cases hc : p c = true
    · exact ⟨a, b, hab, by simp, by simp, ha, hb⟩
    · exact ⟨a, b, hab, by simp, by simp, ha, hb⟩
    · exact ⟨a, c, hac, by simp, by simp, ha, hc⟩
    · simp [ha, hb, hc] at h
    · exact ⟨b, c, hbc, by simp, by simp, hb, hc⟩
    · simp [ha, hb, hc] at h
    · simp [ha, hb, hc] at h
    · simp [ha, hb, hc] at h
  · rintro ⟨s1, s2, hne, hs1, hs2, hp1, hp2⟩
    simp only [List.mem_cons, List.not_mem_nil, or_false] at hs1 hs2
    rcases hs1 with rfl | rfl | rfl <;> rcases hs2 with rfl | rfl | rfl <;>
      first
        | exact absurd rfl hne
        | simp [hp1, hp2]

/-! ### Claim C7 (header classifier, confirmed) -/

/-- C7: a candidate row is a business header row exactly when two distinct
sentinel labels occur among its stripped cell values (the cardinality-2
intersection test); the scan covers only the first 10 rows, the convention
is BUSINESS exactly when some scanned row qualifies, and with no qualifying
row the classification falls back to LEGACY with header row 0 (the
classifier is a total function, so no error is possible). -/
theorem c7_header_classifier :
    (∀ row : List String, _likely_header_row row = true ↔
      ∃ s1 s2 : String, s1 ≠ s2 ∧ s1 ∈ SENTINELS ∧ s2 ∈ SENTINELS ∧
        (∃ v ∈ row, pyStrip v = s1) ∧ (∃ v ∈ row, pyStrip v = s2)) ∧
    (∀ rows : List (List String),
      ((classifyHeader rows).1 = true ↔
        ∃ row ∈ rows.take 10, _likely_header_row row = true) ∧
      ((∀ row ∈ rows.take 10, _likely_header_row row = false) →
        classifyHeader rows = (false, 0))) := by
  constructor
  · intro row
    unfold _likely_header_row SENTINELS
    rw [decide_eq_true_eq, ge_iff_le,
      countP_two_of_three _ _ _ _ (by decide) (by decide) (by decide)]
    simp [List.any_eq_true]
  · intro rows
    constructor
    · unfold classifyHeader
      cases hf : (rows.take 10).findIdx? _likely_header_row with
      | none =>
          simp only [Prod.fst]
          rw [List.findIdx?_eq_none_iff] at hf
          constructor
          · intro h; cases h
          · rintro ⟨row, hmem, hrow⟩
            rw [hf row hmem] at hrow
            cases hrow
      | some i =>
          rw [List.findIdx?_eq_some_iff_getElem] at hf
          obtain ⟨hlt, hp, _⟩ := hf
          exact ⟨fun _ => ⟨_, List.getElem_mem hlt, hp⟩, fun _ => by simp⟩
    · intro hall
      unfold classifyHeader
      rw [List.findIdx?_eq_none_iff.mpr hall]

/-- C7, witness: a window with no sentinel hits classifies as LEGACY with
header row 0. -/
theorem c7_witness : classifyHeader [["alice@co", "", "40"]] = (false, 0) :=
  (c7_header_classifier.2 [["alice@co", "", "40"]]).2 (by decide)

/-! ### Claim C8 (completion detector, confirmed) -/

/-- C8: when no column is literally named "Workstream Status Active" every
row's workstream1_completed is false and no error occurs; when the first
such column has index i, each row's flag is true exactly when that cell,
stripped and lowercased, is in the affirmative vocabulary
y, yes, true, 1, active. -/
theorem c8_completion_detector :
    (∀ t : Table, (∀ c ∈ t.cols, c ≠ STATUS_LABEL) →
        detect_workstream1_completion t = t.rows.map (fun _ => false)) ∧
    (∀ (t : Table) (i : Nat), i < t.cols.length →
        t.cols.getD i "" = STATUS_LABEL →
        (∀ j, j < i → t.cols.getD j "" ≠ STATUS_LABEL) →
        detect_workstream1_completion t =
          t.rows.map (fun r => AFFIRMATIVE.contains (pyLower (pyStrip (r.getD i ""))))) := by
  constructor
  · intro t hnone
    unfold detect_workstream1_completion colIdx
    rw [List.findIdx?_eq_none_iff.mpr]
    intro c hc
    simpa using hnone c hc
  · intro t i hi hat hfirst
    have hfind : t.cols.findIdx? (fun c => c = STATUS_LABEL) = some i := by
      rw [List.findIdx?_eq_some_iff_getElem]
      refine ⟨hi, ?_, ?_⟩
      · rw [List.getD_eq_getElem _ _ hi] at hat
        simpa using hat
      · intro j hj
        have hjlt : j < t.cols.length := Nat.lt_trans hj hi
        have := hfirst j hj
        rw [List.getD_eq_getElem _ _ hjlt] at this
        simpa using this
    unfold detect_workstream1_completion colIdx
    rw [hfind]

/-- C8, witness: the detector applied to a concrete table carrying the
status column in its second position. -/
theorem c8_witness :
    detect_workstream1_completion
        ⟨["Notes", "Workstream Status Active"], [["x", "  YES "], ["y", "n"]]⟩ =
      [["x", "  YES "], ["y", "n"]].map
        (fun r => AFFIRMATIVE.contains (pyLower (pyStrip (r.getD 1 "")))) :=
  c8_completion_detector.2 ⟨["Notes", "Workstream Status Active"], [["x", "  YES "], ["y", "n"]]⟩
    1 (by decide) (by decide) (by decide)

/-! ### Supporting lemmas for workstream pair discovery -/

/-- A successful case-insensitive literal match pins down the head of the
scanned characters. -/
theorem stripCI_head (p : Char) (ps cs : List Char)
    (h : (stripCI (p :: ps) cs).isSome = true) :
    ∃ c rest, cs = c :: rest ∧ charCIEq p c = true := by
  cases cs with
  | nil => simp [stripCI] at h
  | cons c rest =>
      refine ⟨c, rest, rfl, ?_⟩
      by_cases hc : charCIEq p c
      · exact hc
      · simp [stripCI, hc] at h

/-- A column matching the workstream pattern starts (after spaces) with the
letter w, case-insensitively. -/
theorem wsIndex_head (s : String) (k : Nat) (h : wsIndex s = some k) :
    ∃ c rest, dropSpaces s.data = c :: rest ∧ charCIEq 'w' c = true := by
  have hlit : "workstream".data =
      'w' :: ['o', 'r', 'k', 's', 't', 'r', 'e', 'a', 'm'] := rfl
  unfold wsIndex at h
  rw [hlit] at h
  cases hs : stripCI ('w' :: ['o', 'r', 'k', 's', 't', 'r', 'e', 'a', 'm'])
      (dropSpaces s.data) with
  | none => rw [hs] at h; cases h
  | some rest => exact stripCI_head _ _ _ (by rw [hs]; rfl)

/-- A column name can match the workstream pattern or the percent pattern,
never both (the elif in the source is therefore inert). -/
theorem pct_none_of_wsIndex (s : String) (k : Nat) (h : wsIndex s = some k) :
    pctIndex s = none := by
  obtain ⟨c, rest, hd, hci⟩ := wsIndex_head s k h
  have hc : ¬(c = '%') := by
    intro hc
    rw [hc] at hci
    exact absurd hci (by decide)
  unfold pctIndex
  rw [hd]
  simp [List.takeWhile_cons, hc]

/-- Key membership after a Python dict assignment. -/
theorem hasKey_dinsert_iff (m : List (Nat × String)) (k : Nat) (v : String) (k' : Nat) :
    hasKey (dinsert m k v) k' = true ↔ (hasKey m k' = true ∨ k' = k) := by
  unfold hasKey dinsert
  split
  · rename_i hex
    simp only [List.any_eq_true, List.mem_map, decide_eq_true_eq] at hex ⊢
    constructor
    · rintro ⟨q, ⟨p, hp, rfl⟩, hq⟩
      by_cases hpk : p.1 = k
      · rw [if_pos hpk] at hq
        right
        exact hq.symm
      · rw [if_neg hpk] at hq
        exact Or.inl ⟨p, hp, hq⟩
    · rintro (⟨p, hp, hpk⟩ | rfl)
      · by_cases hpk2 : p.1 = k
        · obtain ⟨p0, hp0, hp0k⟩ := hex
          refine ⟨(k, v), ⟨p0, hp0, by rw [if_pos hp0k]⟩, ?_⟩
          rw [← hpk, hpk2]
        · exact ⟨p, ⟨p, hp, by rw [if_neg hpk2]⟩, hpk⟩
      · obtain ⟨p0, hp0, hp0k⟩ := hex
        exact ⟨(k', v), ⟨p0, hp0, by rw [if_pos hp0k]⟩, rfl⟩
  · rename_i hex
    simp only [List.any_eq_true, decide_eq_true_eq] at hex ⊢
    constructor
    · rintro ⟨p, hp, hpk⟩
      rcases List.mem_append.mp hp with hp | hp
      · exact Or.inl ⟨p, hp, hpk⟩
      · right
        rw [List.mem_singleton.mp hp] at hpk
        exact hpk.symm
    · rintro (⟨p, hp, hpk⟩ | rfl)
      · exact ⟨p, List.mem_append_left _ hp, hpk⟩
      · exact ⟨(k', v), List.mem_append_right _ (by simp), rfl⟩

/-- Dict assignment preserves a per-binding invariant. -/
theorem dinsert_inv (P : Nat → String → Prop) {m : List (Nat × String)} {k : Nat}
    {v : String} (hm : ∀ p ∈ m, P p.1 p.2) (hkv : P k v) :
    ∀ p ∈ dinsert m k v, P p.1 p.2 := by
  unfold dinsert
  split
  · intro p hp
    obtain ⟨q, hq, rfl⟩ := List.mem_map.mp hp
    by_cases hqk : q.1 = k
    · rw [if_pos hqk]
      exact hkv
    · rw [if_neg hqk]
      exact hm q hq
  · intro p hp
    rcases List.mem_append.mp hp with hp | hp
    · exact hm p hp
    · rw [List.mem_singleton.mp hp]
      exact hkv

/-- A successful dict lookup returns a stored binding. -/
theorem dget_mem {m : List (Nat × String)} {k : Nat} {s : String}
    (h : dget m k = some s) : (k, s) ∈ m := by
  unfold dget at h
  obtain ⟨p, hfind, hsnd⟩ := Option.map_eq_some'.mp h
  have hp := List.mem_of_find?_eq_some hfind
  have hpk : p.1 = k := by simpa using List.find?_some hfind
  have hps : p = (k, s) := by
    cases p
    simp only at hpk hsnd
    rw [hpk, hsnd]
  exact hps ▸ hp

/-- A present key always looks up to some value. -/
theorem dget_isSome_of_hasKey {m : List (Nat × String)} {k : Nat}
    (h : hasKey m k = true) : ∃ s, dget m k = some s := by
  unfold hasKey at h
  unfold dget
  simp only [List.any_eq_true, decide_eq_true_eq] at h
  obtain ⟨p, hp, hpk⟩ := h
  have hsome : (m.find? (fun p => p.1 = k)).isSome := by
    rw [List.find?_isSome]
    exact ⟨p, hp, by simpa using hpk⟩
  obtain ⟨q, hq⟩ := Option.isSome_iff_exists.mp hsome
  exact ⟨q.2, by rw [hq]; rfl⟩

/-- Key membership against the key list. -/
theorem hasKey_iff_mem_keys (m : List (Nat × String)) (k : Nat) :
    hasKey m k = true ↔ k ∈ m.map Prod.fst := by
  unfold hasKey
  simp only [List.any_eq_true, decide_eq_true_eq, List.mem_map]

/-- Dict assignment keeps the key list duplicate-free. -/
theorem dinsert_keys_nodup {m : List (Nat × String)} {k : Nat} {v : String}
    (h : (m.map Prod.fst).Nodup) : ((dinsert m k v).map Prod.fst).Nodup := by
  unfold dinsert
  split
  · have heq : (List.map (fun p => if p.1 = k then (k, v) else p) m).map Prod.fst =
        m.map Prod.fst := by
      rw [List.map_map]
      apply List.map_congr_left
      intro p _
      by_cases hpk : p.1 = k <;> simp [hpk]
    rw [heq]
    exact h
  · rename_i hex
    rw [List.map_append]
    simp only [List.map_cons, List.map_nil]
    rw [List.nodup_append]
    refine ⟨h, List.nodup_singleton _, ?_⟩
    intro a ha hb
    rw [List.mem_singleton.mp hb] at ha
    obtain ⟨p, hp, hpk⟩ := List.mem_map.mp ha
    simp only [List.any_eq_true, decide_eq_true_eq] at hex
    exact hex ⟨p, hp, hpk⟩

/-- The keys of the workstream-name dict after the discovery loop are the
indices matched by WS_NAME_RE among the processed columns. -/
theorem foldl_pairStep_fst_hasKey (cols : List String) :
    ∀ (m1 m2 : List (Nat × String)) (k : Nat),
      hasKey (cols.foldl pairStep (m1, m2)).1 k = true ↔
        (hasKey m1 k = true ∨ ∃ c ∈ cols, wsIndex c = some k) := by
  induction cols with
  | nil =>
      intro m1 m2 k
      simp
  | cons c cs ih =>
      intro m1 m2 k
      rw [List.foldl_cons]
      cases hws : wsIndex c with
      | some n =>
          have hstep : pairStep (m1, m2) c = (dinsert m1 n c, m2) := by
            unfold pairStep
            rw [hws]
          rw [hstep, ih]
          rw [hasKey_dinsert_iff]
          simp only [List.mem_cons]
          constructor
          · rintro ((h | rfl) | ⟨c', hc', hc'k⟩)
            · exact Or.inl h
            · exact Or.inr ⟨c, Or.inl rfl, hws⟩
            · exact Or.inr ⟨c', Or.inr hc', hc'k⟩
          · rintro (h | ⟨c', (rfl | hc'), hc'k⟩)
            · exact Or.inl (Or.inl h)
            · rw [hws] at hc'k
              exact Or.inl (Or.inr (Option.some.inj hc'k).symm)
            · exact Or.inr ⟨c', hc', hc'k⟩
      | none =>
          have hstep : pairStep (m1, m2) c =
              (match pctIndex c with
               | some n => (m1, dinsert m2 n c)
               | none => (m1, m2)) := by
            unfold pairStep
            rw [hws]
          cases hpc : pctIndex c with
          | some n =>
              rw [hpc] at hstep
              rw [hstep, ih]
              simp only [List.mem_cons]
              constructor
              · rintro (h | ⟨c', hc', hc'k⟩)
                · exact Or.inl h
                · exact Or.inr ⟨c', Or.inr hc', hc'k⟩
              · rintro (h | ⟨c', (rfl | hc'), hc'k⟩)
                · exact Or.inl h
                · rw [hws] at hc'k
                  cases hc'k
                · exact Or.inr ⟨c', hc', hc'k⟩
          | none =>
              rw [hpc] at hstep
              rw [hstep, ih]
              simp only [List.mem_cons]
              constructor
              · rintro (h | ⟨c', hc', hc'k⟩)
                · exact Or.inl h
                · exact Or.inr ⟨c', Or.inr hc', hc'k⟩
              · rintro (h | ⟨c', (rfl | hc'), hc'k⟩)
                · exact Or.inl h
                · rw [hws] at hc'k
                  cases hc'k
                · exact Or.inr ⟨c', hc', hc'k⟩

/-- The keys of the percent dict after the discovery loop are the indices
matched by PCT_NAME_RE among the columns that did not match WS_NAME_RE. -/
theorem foldl_pairStep_snd_hasKey (cols : List String) :
    ∀ (m1 m2 : List (Nat × String)) (k : Nat),
      hasKey (cols.foldl pairStep (m1, m2)).2 k = true ↔
        (hasKey m2 k = true ∨ ∃ c ∈ cols, wsIndex c = none ∧ pctIndex c = some k) := by
  induction cols with
  | nil =>
      intro m1 m2 k
      simp
  | cons c cs ih =>
      intro m1 m2 k
      rw [List.foldl_cons]
      cases hws : wsIndex c with
      | some n =>
          have hstep : pairStep (m1, m2) c = (dinsert m1 n c, m2) := by
            unfold pairStep
            rw [hws]
          rw [hstep, ih]
          simp only [List.mem_cons]
          constructor
          · rintro (h | ⟨c', hc', hc'k⟩)
            · exact Or.inl h
            · exact Or.inr ⟨c', Or.inr hc', hc'k⟩
          · rintro (h | ⟨c', (rfl | hc'), hc'n, hc'k⟩)
            · exact Or.inl h
            · rw [hws] at hc'n
              cases hc'n
            · exact Or.inr ⟨c', hc', hc'n, hc'k⟩
      | none =>
          cases hpc : pctIndex c with
          | some n =>
              have hstep : pairStep (m1, m2) c = (m1, dinsert m2 n c) := by
                unfold pairStep
                rw [hws, hpc]
              rw [hstep, ih, hasKey_dinsert_iff]
              simp only [List.mem_cons]
              constructor
              · rintro ((h | rfl) | ⟨c', hc', hc'n, hc'k⟩)
                · exact Or.inl h
                · exact Or.inr ⟨c, Or.inl rfl, hws, hpc⟩
                · exact Or.inr ⟨c', Or.inr hc', hc'n, hc'k⟩
              · rintro (h | ⟨c', (rfl | hc'), hc'n, hc'k⟩)
                · exact Or.inl (Or.inl h)
                · rw [hpc] at hc'k
                  exact Or.inl (Or.inr (Option.some.inj hc'k).symm)
                · exact Or.inr ⟨c', hc', hc'n, hc'k⟩
          | none =>
              have hstep : pairStep (m1, m2) c = (m1, m2) := by
                unfold pairStep
                rw [hws, hpc]
              rw [hstep, ih]
              simp only [List.mem_cons]
              constructor
              · rintro (h | ⟨c', hc', hc'n, hc'k⟩)
                · exact Or.inl h
                · exact Or.inr ⟨c', Or.inr hc', hc'n, hc'k⟩
              · rintro (h | ⟨c', (rfl | hc'), hc'n, hc'k⟩)
                · exact Or.inl h
                · rw [hpc] at hc'k
                  cases hc'k
                · exact Or.inr ⟨c', hc', hc'n, hc'k⟩

/-- The discovery loop stores under each index only columns that match the
corresponding pattern with that index. -/
theorem foldl_pairStep_inv (cols : List String) :
    ∀ (m1 m2 : List (Nat × String)),
      (∀ p ∈ m1, wsIndex p.2 = some p.1) →
      (∀ p ∈ m2, pctIndex p.2 = some p.1) →
      (∀ p ∈ (cols.foldl pairStep (m1, m2)).1, wsIndex p.2 = some p.1) ∧
      (∀ p ∈ (cols.foldl pairStep (m1, m2)).2, pctIndex p.2 = some p.1) := by
  induction cols with
  | nil =>
      intro m1 m2 h1 h2
      exact ⟨h1, h2⟩
  | cons c cs ih =>
      intro m1 m2 h1 h2
      rw [List.foldl_cons]
      cases hws : wsIndex c with
      | some n =>
          have hstep : pairStep (m1, m2) c = (dinsert m1 n c, m2) := by
            unfold pairStep
            rw [hws]
          rw [hstep]
          exact ih _ _ (dinsert_inv (fun a b => wsIndex b = some a) h1 hws) h2
      | none =>
          cases hpc : pctIndex c with
          | some n =>
              have hstep : pairStep (m1, m2) c = (m1, dinsert m2 n c) := by
                unfold pairStep
                rw [hws, hpc]
              rw [hstep]
              exact ih _ _ h1 (dinsert_inv (fun a b => pctIndex b = some a) h2 hpc)
          | none =>
              have hstep : pairStep (m1, m2) c = (m1, m2) := by
                unfold pairStep
                rw [hws, hpc]
              rw [hstep]
              exact ih _ _ h1 h2

/-- The discovery loop keeps both key lists duplicate-free. -/
theorem foldl_pairStep_nodup (cols : List String) :
    ∀ (m1 m2 : List (Nat × String)),
      (m1.map Prod.fst).Nodup → (m2.map Prod.fst).Nodup →
      ((cols.foldl pairStep (m1, m2)).1.map Prod.fst).Nodup ∧
      ((cols.foldl pairStep (m1, m2)).2.map Prod.fst).Nodup := by
  induction cols with
  | nil =>
      intro m1 m2 h1 h2
      exact ⟨h1, h2⟩
  | cons c cs ih =>
      intro m1 m2 h1 h2
      rw [List.foldl_cons]
      cases hws : wsIndex c with
      | some n =>
          have hstep : pairStep (m1, m2) c = (dinsert m1 n c, m2) := by
            unfold pairStep
            rw [hws]
          rw [hstep]
          exact ih _ _ (dinsert_keys_nodup h1) h2
      | none =>
          cases hpc : pctIndex c with
          | some n =>
              have hstep : pairStep (m1, m2) c = (m1, dinsert m2 n c) := by
                unfold pairStep
                rw [hws, hpc]
              rw [hstep]
              exact ih _ _ h1 (dinsert_keys_nodup h2)
          | none =>
              have hstep : pairStep (m1, m2) c = (m1, m2) := by
                unfold pairStep
                rw [hws, hpc]
              rw [hstep]
              exact ih _ _ h1 h2

/-- Membership in an ascending insertion. -/
theorem mem_insertAsc {a k : Nat} {l : List Nat} :
    a ∈ insertAsc k l ↔ a = k ∨ a ∈ l := by
  induction l with
  | nil => simp [insertAsc]
  | cons x xs ih =>
      unfold insertAsc
      by_cases hkx : k ≤ x
      · rw [if_pos hkx]
        simp
      · rw [if_neg hkx]
        simp only [List.mem_cons, ih]
        tauto

/-- Ascending insertion permutes consing. -/
theorem insertAsc_perm (k : Nat) (l : List Nat) : (insertAsc k l).Perm (k :: l) := by
  induction l with
  | nil => simp [insertAsc]
  | cons x xs ih =>
      unfold insertAsc
      by_cases hkx : k ≤ x
      · rw [if_pos hkx]
      · rw [if_neg hkx]
        exact (ih.cons x).trans (List.Perm.swap k x xs)

/-- The key sort is a permutation of its input. -/
theorem sortAsc_perm (l : List Nat) : (sortAsc l).Perm l := by
  induction l with
  | nil => simp [sortAsc]
  | cons x xs ih =>
      have hdef : sortAsc (x :: xs) = insertAsc x (sortAsc xs) := rfl
      rw [hdef]
      exact (insertAsc_perm x (sortAsc xs)).trans (ih.cons x)

/-- Ascending insertion preserves sortedness. -/
theorem insertAsc_pairwise (k : Nat) (l : List Nat)
    (h : l.Pairwise (fun a b => a ≤ b)) :
    (insertAsc k l).Pairwise (fun a b => a ≤ b) := by
  induction l with
  | nil => simp [insertAsc]
  | cons x xs ih =>
      unfold insertAsc
      by_cases hkx : k ≤ x
      · rw [if_pos hkx]
        refine List.Pairwise.cons ?_ h
        intro b hb
        rcases List.mem_cons.mp hb with rfl | hb
        · exact hkx
        · exact Nat.le_trans hkx (List.rel_of_pairwise_cons h hb)
      · rw [if_neg hkx]
        refine List.Pairwise.cons ?_ (ih h.of_cons)
        intro b hb
        rcases mem_insertAsc.mp hb with rfl | hb
        · exact Nat.le_of_not_le hkx
        · exact List.rel_of_pairwise_cons h hb

/-- The key sort produces an ascending list. -/
theorem sortAsc_pairwise_le (l : List Nat) :
    (sortAsc l).Pairwise (fun a b => a ≤ b) := by
  induction l with
  | nil => simp [sortAsc]
  | cons x xs ih => exact insertAsc_pairwise x (sortAsc xs) ih

/-- Sorting a duplicate-free key list yields a strictly ascending list. -/
theorem sortAsc_pairwise_lt (l : List Nat) (h : l.Nodup) :
    (sortAsc l).Pairwise (fun a b => a < b) := by
  have hs := sortAsc_pairwise_le l
  have hn : (sortAsc l).Nodup := ((sortAsc_perm l).nodup_iff).mpr h
  exact (hs.and hn).imp (fun hab => Nat.lt_of_le_of_ne hab.1 hab.2)

/-- Pairwise relations transfer through filterMap when the mapping relates
results along the original relation. -/
theorem pairwise_filterMap_of {α β : Type} {R : α → α → Prop} {S : β → β → Prop}
    (f : α → Option β)
    (H : ∀ a a' b b', R a a' → f a = some b → f a' = some b' → S b b') :
    ∀ l : List α, l.Pairwise R → (l.filterMap f).Pairwise S := by
  intro l
  induction l with
  | nil => simp
  | cons x xs ih =>
      intro h
      rw [List.filterMap_cons]
      cases hfx : f x with
      | none => exact ih h.of_cons
      | some b =>
          refine List.Pairwise.cons ?_ (ih h.of_cons)
          intro b' hb'
          obtain ⟨a', ha', hfa'⟩ := List.mem_filterMap.mp hb'
          exact H x a' b b' (List.rel_of_pairwise_cons h ha') hfx hfa'

/-- A successful pair lookup inverts to its two dict lookups. -/
theorem pairLookup_eq {ws pc : List (Nat × String)} {k : Nat} {x y : String}
    (h : pairLookup ws pc k = some (x, y)) :
    dget ws k = some x ∧ dget pc k = some y := by
  unfold pairLookup at h
  cases hga : dget ws k with
  | none =>
      rw [hga] at h
      cases hgb : dget pc k with
      | none => rw [hgb] at h; cases h
      | some b => rw [hgb] at h; cases h
  | some a =>
      cases hgb : dget pc k with
      | none => rw [hga, hgb] at h; cases h
      | some b =>
          rw [hga, hgb] at h
          cases h
          exact ⟨rfl, rfl⟩

/-! ### Claim C6 (workstream pair discovery, confirmed) -/

/-- C6: on the example columns the discovery returns exactly the two
complete pairs (the partially matched index never forms one); in general an
index k contributes a pair exactly when some column matches the workstream
pattern with k and some column matches the percent pattern with k; and the
returned pairs are strictly ascending in their index. -/
theorem c6_workstream_pair_discovery :
    find_workstream_pairs ["Workstream 1", "% 1", "Workstream 3", "%3", "Notes"] =
      [("Workstream 1", "% 1"), ("Workstream 3", "%3")] ∧
    (∀ (cols : List String) (k : Nat),
      (∃ pr ∈ find_workstream_pairs cols,
          wsIndex pr.1 = some k ∧ pctIndex pr.2 = some k) ↔
        ((∃ c ∈ cols, wsIndex c = some k) ∧ ∃ c ∈ cols, pctIndex c = some k)) ∧
    (∀ cols : List String,
      (find_workstream_pairs cols).Pairwise
        (fun p q => (wsIndex p.1).getD 0 < (wsIndex q.1).getD 0)) := by
  refine ⟨by decide, ?_, ?_⟩
  · intro cols k
    have hinv : (∀ p ∈ (pairMaps cols).1, wsIndex p.2 = some p.1) ∧
        (∀ p ∈ (pairMaps cols).2, pctIndex p.2 = some p.1) :=
      foldl_pairStep_inv cols [] [] (by simp) (by simp)
    have hk1 : ∀ j, hasKey (pairMaps cols).1 j = true ↔
        ∃ c ∈ cols, wsIndex c = some j := by
      intro j
      have := foldl_pairStep_fst_hasKey cols [] [] j
      simpa [hasKey] using this
    have hk2 : ∀ j, hasKey (pairMaps cols).2 j = true ↔
        ∃ c ∈ cols, wsIndex c = none ∧ pctIndex c = some j := by
      intro j
      have := foldl_pairStep_snd_hasKey cols [] [] j
      simpa [hasKey] using this
    simp only [find_workstream_pairs]
    constructor
    · rintro ⟨⟨pa, pb⟩, hpr, hw, hp⟩
      obtain ⟨k', hk'mem, hfk'⟩ := List.mem_filterMap.mp hpr
      obtain ⟨hga, hgb⟩ := pairLookup_eq hfk'
      have hwa : wsIndex pa = some k' := hinv.1 (k', pa) (dget_mem hga)
      have hpb : pctIndex pb = some k' := hinv.2 (k', pb) (dget_mem hgb)
      have hkk : k' = k := by
        rw [hw] at hwa
        exact (Option.some.inj hwa).symm
      subst hkk
      constructor
      · exact (hk1 k').mp ((hasKey_iff_mem_keys _ _).mpr
          (List.mem_map.mpr ⟨(k', pa), dget_mem hga, rfl⟩))
      · obtain ⟨c, hc, _, hcp⟩ := (hk2 k').mp ((hasKey_iff_mem_keys _ _).mpr
          (List.mem_map.mpr ⟨(k', pb), dget_mem hgb, rfl⟩))
        exact ⟨c, hc, hcp⟩
    · rintro ⟨⟨c1, hc1, hw1⟩, ⟨c2, hc2, hp2⟩⟩
      have hwsnone : wsIndex c2 = none := by
        cases hws2 : wsIndex c2 with
        | none => rfl
        | some j =>
            rw [pct_none_of_wsIndex c2 j hws2] at hp2
            cases hp2
      have hhk1 : hasKey (pairMaps cols).1 k = true :=
        (hk1 k).mpr ⟨c1, hc1, hw1⟩
      have hhk2 : hasKey (pairMaps cols).2 k = true :=
        (hk2 k).mpr ⟨c2, hc2, hwsnone, hp2⟩
      obtain ⟨a, hga⟩ := dget_isSome_of_hasKey hhk1
      obtain ⟨b, hgb⟩ := dget_isSome_of_hasKey hhk2
      refine ⟨(a, b), ?_, ?_, ?_⟩
      · apply List.mem_filterMap.mpr
        refine ⟨k, ?_, by unfold pairLookup; rw [hga, hgb]⟩
        rw [(sortAsc_perm _).mem_iff]
        apply List.mem_filter.mpr
        exact ⟨(hasKey_iff_mem_keys _ _).mp hhk1, hhk2⟩
      · exact hinv.1 (k, a) (dget_mem hga)
      · exact hinv.2 (k, b) (dget_mem hgb)
  · intro cols
    have hinv : (∀ p ∈ (pairMaps cols).1, wsIndex p.2 = some p.1) ∧
        (∀ p ∈ (pairMaps cols).2, pctIndex p.2 = some p.1) :=
      foldl_pairStep_inv cols [] [] (by simp) (by simp)
    have hnd : ((pairMaps cols).1.map Prod.fst).Nodup :=
      (foldl_pairStep_nodup cols [] [] (by simp) (by simp)).1
    have hksnd : (((pairMaps cols).1.map Prod.fst).filter
        (fun k => hasKey (pairMaps cols).2 k)).Nodup := hnd.filter _
    simp only [find_workstream_pairs]
    apply pairwise_filterMap_of (pairLookup (pairMaps cols).1 (pairMaps cols).2)
      ?_ _ (sortAsc_pairwise_lt _ hksnd)
    rintro a a' ⟨b1, b2⟩ ⟨b1', b2'⟩ hlt hfa hfa'
    obtain ⟨hga, _⟩ := pairLookup_eq hfa
    obtain ⟨hga', _⟩ := pairLookup_eq hfa'
    have h1 : wsIndex b1 = some a := hinv.1 (a, b1) (dget_mem hga)
    have h2 : wsIndex b1' = some a' := hinv.1 (a', b1') (dget_mem hga')
    simp only [h1, h2]
    simpa using hlt

/-- C6, witness: the pair-presence equivalence instantiated at index 3 of
the example columns. -/
theorem c6_witness :
    (∃ c ∈ ["Workstream 1", "% 1", "Workstream 3", "%3", "Notes"],
        wsIndex c = some 3) ∧
      ∃ c ∈ ["Workstream 1", "% 1", "Workstream 3", "%3", "Notes"],
        pctIndex c = some 3 :=
  (c6_workstream_pair_discovery.2.1
      ["Workstream 1", "% 1", "Workstream 3", "%3", "Notes"] 3).mp
    ⟨("Workstream 3", "%3"), by decide, by decide, by decide⟩

end PET
